import Mathlib

/-!
Verification of the offline-first todo application (`src/app/page.tsx`).

The component `TodoApp` keeps an in-memory list of todos, mirrors every
mutation into an IndexedDB object store keyed by `id`, and runs a
reconciliation pass (`syncTodos`) from an effect that fires whenever the
`isOnline` state changes.  We embed the state and the event handlers as pure
Lean functions: the in-memory React state and the IndexedDB store are both
explicit fields of `AppState`, and each handler is a state transformer.
-/

namespace TodoApp

/-- The `Todo` interface of `page.tsx` (lines 7-13). -/
structure Todo where
  id : String
  text : String
  completed : Bool
  createdAt : Nat
  synced : Bool
deriving DecidableEq, Repr

/-- Whitespace predicate used to model JavaScript `String.prototype.trim`. -/
def isWS (c : Char) : Bool := c.isWhitespace

/-- Model of JavaScript `String.prototype.trim` on the character list:
drop whitespace from the front, then from the back. -/
def trimChars (l : List Char) : List Char :=
  (l.dropWhile isWS).rdropWhile isWS

/-- Model of JavaScript `"...".trim()` on Lean strings. -/
def strTrim (s : String) : String :=
  String.mk (trimChars s.data)

/-- Model of `objectStore.put(todo)` on the `todos` store created with
`keyPath: 'id'` (lines 52 and 77-86): an upsert by `id`. -/
def putDB (st : List Todo) (v : Todo) : List Todo :=
  if st.any (fun t => t.id == v.id) then
    st.map (fun t => if t.id == v.id then v else t)
  else
    st ++ [v]

/-- Model of `objectStore.delete(id)` (`deleteTodoDB`, lines 88-97):
removes the record stored under key `id`. -/
def deleteDB (st : List Todo) (id : String) : List Todo :=
  st.filter (fun t => t.id != id)

/-- Model of `objectStore.getAll()` (lines 65-75): returns every stored
record. -/
def getAllDB (st : List Todo) : List Todo := st

/-- The component state: the React state (`todos`, `newTodo`, `isOnline`)
together with the contents of the IndexedDB `todos` object store. -/
structure AppState where
  todos : List Todo
  store : List Todo
  isOnline : Bool
  newTodo : String
deriving DecidableEq, Repr

/-- The todo built by `addTodo` (lines 113-119): id minted from the current
time, text trimmed, not completed, `synced` set from current connectivity. -/
def newItem (s : AppState) (now : Nat) : Todo :=
  { id := toString now
    text := strTrim s.newTodo
    completed := false
    createdAt := now
    synced := s.isOnline }

/-- Embedding of `addTodo` (lines 110-128): reject when the trimmed input is
empty, otherwise persist the new todo, append it to the list and clear the
input field. -/
def addTodo (s : AppState) (now : Nat) : AppState :=
  if strTrim s.newTodo = "" then s
  else
    { s with
      todos := s.todos ++ [newItem s now]
      store := putDB s.store (newItem s now)
      newTodo := "" }

/-- The per-item update of `toggleTodo` (lines 137-139): on the entry whose
id matches, flip `completed` and set `synced` from current connectivity. -/
def toggleItem (online : Bool) (id : String) (t : Todo) : Todo :=
  if t.id == id then { t with completed := !t.completed, synced := online } else t

/-- Embedding of `toggleTodo` (lines 136-146): map `toggleItem` over the
list, then persist the matching entry of the updated list when one exists. -/
def toggleTodo (s : AppState) (id : String) : AppState :=
  { s with
    todos := s.todos.map (toggleItem s.isOnline id)
    store :=
      match (s.todos.map (toggleItem s.isOnline id)).find? (fun t => t.id == id) with
      | some t => putDB s.store t
      | none => s.store }

/-- Embedding of `deleteTodo` (lines 148-154): remove the record from the
store and drop the matching entries from the in-memory list. -/
def deleteTodo (s : AppState) (id : String) : AppState :=
  { s with
    todos := s.todos.filter (fun t => t.id != id)
    store := deleteDB s.store id }

/-- Embedding of `syncTodos` (lines 99-108) run to completion with no
intervening mutation: mark every todo currently in memory as synced, persist
each one, and install the synced snapshot as the new list. -/
def syncTodos (s : AppState) : AppState :=
  { s with
    todos := s.todos.map (fun t => { t with synced := true })
    store := (s.todos.map (fun t => { t with synced := true })).foldl putDB s.store }

/-- Embedding of `loadTodosFromDB` (lines 65-75): replace the in-memory list
with the store contents. -/
def loadTodosFromDB (s : AppState) : AppState :=
  { s with todos := getAllDB s.store }

/-- Embedding of `unsyncedCount` (line 156). -/
def unsyncedCount (todos : List Todo) : Nat :=
  (todos.filter fun t => !t.synced).length

/-- The condition under which the pending banner is rendered
(line 179: `unsyncedCount > 0 && !isOnline`). -/
def showPendingBanner (s : AppState) : Bool :=
  decide (0 < unsyncedCount s.todos) && !s.isOnline

/-- The events that drive the component: typing in the input field
(`setNewTodo`), the platform online/offline events (`setIsOnline`), the
three item operations, a completed reconciliation pass, and a reload of the
list from the store. -/
inductive Op where
  | setText (text : String)
  | setOnline (b : Bool)
  | add (now : Nat)
  | toggle (id : String)
  | delete (id : String)
  | sync
  | load
deriving DecidableEq, Repr

/-- One event applied to the state. -/
def applyOp (s : AppState) : Op → AppState
  | Op.setText text => { s with newTodo := text }
  | Op.setOnline b => { s with isOnline := b }
  | Op.add now => addTodo s now
  | Op.toggle id => toggleTodo s id
  | Op.delete id => deleteTodo s id
  | Op.sync => syncTodos s
  | Op.load => loadTodosFromDB s

/-- A sequence of events applied in order. -/
def runOps (s : AppState) (ops : List Op) : AppState :=
  ops.foldl applyOp s

/-- The initial component state (lines 16-18): empty list, empty store,
`isOnline` initialised to `true`, empty input field. -/
def initState : AppState :=
  { todos := [], store := [], isOnline := true, newTodo := "" }

/-- Number of `syncTodos` invocations made by the `[isOnline]` effect
(lines 39-43) over the renders after the first, given the previous render
value of `isOnline`: the effect fires when the value changed, and calls
`syncTodos` only when the new value is `true`. -/
def syncCallsFrom (prev : Bool) : List Bool → Nat
  | [] => 0
  | v :: vs => (if !prev && v then 1 else 0) + syncCallsFrom v vs

/-- Number of `syncTodos` invocations made by the `[isOnline]` effect over a
whole render trace (the per-render values of `isOnline`): the effect also
fires on the initial render, where it calls `syncTodos` iff `isOnline` is
`true`.  In the component the trace always starts with `true`, the
`useState` initial value (line 18). -/
def syncCalls : List Bool → Nat
  | [] => 0
  | v :: vs => (if v then 1 else 0) + syncCallsFrom v vs

/-- Number of `false → true` transitions of the connectivity signal along a
render trace. -/
def falseToTrue : List Bool → Nat
  | [] => 0
  | [_] => 0
  | a :: b :: rest => (if !a && b then 1 else 0) + falseToTrue (b :: rest)

/-- A well-formed item text: non-empty and already trimmed. -/
def textOk (t : Todo) : Prop :=
  t.text ≠ "" ∧ strTrim t.text = t.text

/-- Every item held in memory and every stored record has a well-formed
text. -/
def stateTextOk (s : AppState) : Prop :=
  (∀ t ∈ s.todos, textOk t) ∧ (∀ t ∈ s.store, textOk t)

/-- Ids are pairwise distinct. -/
def idsNodup (l : List Todo) : Prop :=
  (l.map Todo.id).Nodup

/-- A concrete state used to instantiate the theorems: offline, two items in
memory and in the store, one of them unsynced, input field filled. -/
def sampleState : AppState :=
  { todos := [⟨"1", "buy milk", false, 1, false⟩, ⟨"2", "call mum", true, 2, true⟩]
    store := [⟨"1", "buy milk", false, 1, false⟩, ⟨"2", "call mum", true, 2, true⟩]
    isOnline := false
    newTodo := "  water plants  " }


theorem trimChars_eq_nil_iff (l : List Char) : trimChars l = [] ↔ ∀ c ∈ l, isWS c := by
  unfold trimChars
  rw [List.rdropWhile_eq_nil_iff]
  constructor
  · intro h c hc
    rw [← List.takeWhile_append_dropWhile (p := isWS) (l := l)] at hc
    rcases List.mem_append.mp hc with h1 | h2
    · exact List.mem_takeWhile_imp h1
    · exact h c h2
  · intro h c hc
    rw [List.dropWhile_eq_nil_iff.mpr h] at hc
    cases hc

theorem strTrim_eq_empty_iff (s : String) : strTrim s = "" ↔ ∀ c ∈ s.data, isWS c := by
  rw [← trimChars_eq_nil_iff]
  unfold strTrim
  rw [String.ext_iff]

theorem trimChars_idem (l : List Char) : trimChars (trimChars l) = trimChars l := by
  unfold trimChars
  have h1 : List.dropWhile isWS (List.dropWhile isWS l) = List.dropWhile isWS l :=
    List.dropWhile_idempotent isWS l
  have key : List.dropWhile isWS (List.rdropWhile isWS (List.dropWhile isWS l)) =
      List.rdropWhile isWS (List.dropWhile isWS l) := by
    cases hr : List.rdropWhile isWS (List.dropWhile isWS l) with
    | nil => rfl
    | cons a t =>
      have hpre : List.IsPrefix (a :: t) (List.dropWhile isWS l) := by
        rw [← hr]; exact List.rdropWhile_prefix isWS (List.dropWhile isWS l)
      obtain ⟨u, hu⟩ := hpre
      have hws : isWS a = false := by
        by_contra hcon
        have ha : isWS a = true := by
          cases hv : isWS a
          · exact absurd hv hcon
          · rfl
        rw [← hu, List.cons_append, List.dropWhile_cons, ha] at h1
        simp only [if_true] at h1
        have hle : (List.dropWhile isWS (t ++ u)).length ≤ (t ++ u).length :=
          (List.dropWhile_sublist isWS).length_le
        rw [h1] at hle
        simp at hle
      rw [List.dropWhile_cons, hws]
      simp
  rw [key, List.rdropWhile_idempotent]

theorem strTrim_idem (s : String) : strTrim (strTrim s) = strTrim s :=
  congrArg String.mk (trimChars_idem s.data)


theorem mem_putDB {st : List Todo} {v t : Todo} (h : t ∈ putDB st v) : t ∈ st ∨ t = v := by
  unfold putDB at h
  split at h
  · obtain ⟨x, hx, hfx⟩ := List.mem_map.mp h
    by_cases hid : (x.id == v.id) = true
    · right; rw [← hfx]; simp [hid]
    · left; rw [← hfx]; simpa [hid] using hx
  · rcases List.mem_append.mp h with h1 | h2
    · exact Or.inl h1
    · exact Or.inr (by simpa using h2)

theorem self_mem_putDB (st : List Todo) (v : Todo) : v ∈ putDB st v := by
  unfold putDB
  split
  · next h =>
    obtain ⟨x, hx, hid⟩ := List.any_eq_true.mp h
    exact List.mem_map.mpr ⟨x, hx, by simp [hid]⟩
  · simp

theorem putDB_keeps_synced {st : List Todo} {v : Todo} {i : String}
    (h : ∃ u ∈ st, u.id = i ∧ u.synced = true) (hv : v.synced = true) :
    ∃ u ∈ putDB st v, u.id = i ∧ u.synced = true := by
  obtain ⟨u, hu, hui, hus⟩ := h
  unfold putDB
  split
  · by_cases hid : (u.id == v.id) = true
    · exact ⟨v, List.mem_map.mpr ⟨u, hu, by simp [hid]⟩, (eq_of_beq hid) ▸ hui, hv⟩
    · exact ⟨u, List.mem_map.mpr ⟨u, hu, by simp [hid]⟩, hui, hus⟩
  · exact ⟨u, List.mem_append.mpr (Or.inl hu), hui, hus⟩

theorem foldl_putDB_keeps {l : List Todo} (hl : ∀ x ∈ l, x.synced = true)
    {st : List Todo} {i : String} (h : ∃ u ∈ st, u.id = i ∧ u.synced = true) :
    ∃ u ∈ l.foldl putDB st, u.id = i ∧ u.synced = true := by
  induction l generalizing st with
  | nil => exact h
  | cons v l ih =>
    exact ih (fun x hx => hl x (List.mem_cons_of_mem _ hx))
      (putDB_keeps_synced h (hl v (List.mem_cons_self _ _)))

theorem foldl_putDB_mem_id {l : List Todo} (hl : ∀ x ∈ l, x.synced = true)
    {x : Todo} (hx : x ∈ l) (st : List Todo) :
    ∃ u ∈ l.foldl putDB st, u.id = x.id ∧ u.synced = true := by
  induction l generalizing st with
  | nil => cases hx
  | cons v l ih =>
    rcases List.mem_cons.mp hx with rfl | hx2
    · exact foldl_putDB_keeps (fun y hy => hl y (List.mem_cons_of_mem _ hy))
        ⟨x, self_mem_putDB st x, rfl, hl x (List.mem_cons_self _ _)⟩
    · exact ih (fun y hy => hl y (List.mem_cons_of_mem _ hy)) hx2 (putDB st v)

theorem mem_foldl_putDB {l st : List Todo} {t : Todo} (h : t ∈ l.foldl putDB st) :
    t ∈ st ∨ t ∈ l := by
  induction l generalizing st with
  | nil => exact Or.inl h
  | cons v l ih =>
    rcases ih h with h1 | h2
    · rcases mem_putDB h1 with h3 | h4
      · exact Or.inl h3
      · exact Or.inr (h4 ▸ List.mem_cons_self _ _)
    · exact Or.inr (List.mem_cons_of_mem _ h2)

theorem idsNodup_putDB {st : List Todo} (v : Todo) (h : idsNodup st) :
    idsNodup (putDB st v) := by
  unfold idsNodup putDB at *
  split
  · rw [List.map_map]
    have heq : ∀ t ∈ st, (Todo.id ∘ fun t => if t.id == v.id then v else t) t = Todo.id t := by
      intro t ht
      by_cases hid : (t.id == v.id) = true
      · simp [Function.comp, hid, eq_of_beq hid]
      · simp [Function.comp, hid]
    rw [List.map_congr_left heq]
    exact h
  · next hna =>
    have hnotin : v.id ∉ st.map Todo.id := by
      intro hmem
      obtain ⟨x, hx, hxid⟩ := List.mem_map.mp hmem
      exact hna (List.any_eq_true.mpr ⟨x, hx, by simp [hxid]⟩)
    rw [List.map_append]
    simp [List.nodup_append, h, hnotin]

theorem idsNodup_deleteDB {st : List Todo} (id : String) (h : idsNodup st) :
    idsNodup (deleteDB st id) := by
  unfold idsNodup deleteDB at *
  exact h.sublist ((List.filter_sublist st).map Todo.id)

theorem idsNodup_foldl_putDB {l st : List Todo} (h : idsNodup st) :
    idsNodup (l.foldl putDB st) := by
  induction l generalizing st with
  | nil => exact h
  | cons v l ih => exact ih (idsNodup_putDB v h)


theorem toggleItem_id (b : Bool) (id : String) (t : Todo) :
    (toggleItem b id t).id = t.id := by
  unfold toggleItem
  split <;> rfl

theorem toggleItem_text (b : Bool) (id : String) (t : Todo) :
    (toggleItem b id t).text = t.text := by
  unfold toggleItem
  split <;> rfl

theorem toggleItem_toggleItem_completed (b1 b2 : Bool) (id : String) (t : Todo) :
    (toggleItem b2 id (toggleItem b1 id t)).completed = t.completed := by
  unfold toggleItem
  by_cases h : (t.id == id) = true
  · simp [h, Bool.not_not]
  · simp [h]

theorem idsNodup_applyOp (s : AppState) (op : Op) (h : idsNodup s.store) :
    idsNodup (applyOp s op).store := by
  cases op with
  | setText t => exact h
  | setOnline b => exact h
  | add now =>
    show idsNodup (addTodo s now).store
    unfold addTodo
    split
    · exact h
    · exact idsNodup_putDB _ h
  | toggle id =>
    show idsNodup (toggleTodo s id).store
    unfold toggleTodo
    cases hf : (s.todos.map (toggleItem s.isOnline id)).find? (fun t => t.id == id) with
    | none => simpa [hf] using h
    | some t => simpa [hf] using idsNodup_putDB t h
  | delete id => exact idsNodup_deleteDB id h
  | sync => exact idsNodup_foldl_putDB h
  | load => exact h

theorem runOps_preserves {Q : AppState → Prop} (hQ : ∀ s op, Q s → Q (applyOp s op)) :
    ∀ ops s, Q s → Q (runOps s ops) := by
  intro ops
  induction ops with
  | nil => exact fun s h => h
  | cons op ops ih => exact fun s h => ih (applyOp s op) (hQ s op h)

theorem textOk_applyOp (s : AppState) (op : Op) (h : stateTextOk s) :
    stateTextOk (applyOp s op) := by
  obtain ⟨hm, hs⟩ := h
  cases op with
  | setText t => exact ⟨hm, hs⟩
  | setOnline b => exact ⟨hm, hs⟩
  | add now =>
    show stateTextOk (addTodo s now)
    unfold addTodo
    split
    · exact ⟨hm, hs⟩
    · next hne =>
      have hOk : textOk (newItem s now) := by
        refine ⟨hne, ?_⟩
        show strTrim (strTrim s.newTodo) = strTrim s.newTodo
        exact strTrim_idem s.newTodo
      constructor
      · intro t ht
        rcases List.mem_append.mp ht with h1 | h2
        · exact hm t h1
        · rw [List.mem_singleton.mp h2]; exact hOk
      · intro t ht
        rcases mem_putDB ht with h1 | h2
        · exact hs t h1
        · rw [h2]; exact hOk
  | toggle id =>
    show stateTextOk (toggleTodo s id)
    have hmap : ∀ t ∈ s.todos.map (toggleItem s.isOnline id), textOk t := by
      intro t ht
      obtain ⟨x, hx, hfx⟩ := List.mem_map.mp ht
      have := hm x hx
      rw [← hfx]
      unfold textOk at *
      rw [toggleItem_text]
      exact this
    unfold toggleTodo
    cases hf : (s.todos.map (toggleItem s.isOnline id)).find? (fun t => t.id == id) with
    | none => exact ⟨by simpa [hf] using hmap, by simpa [hf] using hs⟩
    | some t =>
      refine ⟨by simpa [hf] using hmap, ?_⟩
      have ht : textOk t := hmap t (List.mem_of_find?_eq_some hf)
      simp only [hf]
      intro u hu
      rcases mem_putDB hu with h1 | h2
      · exact hs u h1
      · rw [h2]; exact ht
  | delete id =>
    refine ⟨?_, ?_⟩
    · intro t ht
      exact hm t (List.mem_filter.mp ht).1
    · intro t ht
      exact hs t (List.mem_filter.mp ht).1
  | sync =>
    show stateTextOk (syncTodos s)
    have hmap : ∀ t ∈ s.todos.map (fun u => { u with synced := true }), textOk t := by
      intro t ht
      obtain ⟨x, hx, hfx⟩ := List.mem_map.mp ht
      have := hm x hx
      rw [← hfx]
      exact this
    refine ⟨hmap, ?_⟩
    intro t ht
    rcases mem_foldl_putDB ht with h1 | h2
    · exact hs t h1
    · exact hmap t h2
  | load => exact ⟨hs, hs⟩


/-- C1: every local mutation (add, toggle) sets the affected item's `synced`
flag to the connectivity signal's value at mutation time; an offline add
yields `synced = false`, an online add `synced = true`. -/
theorem C1_mutation_sets_synced (s : AppState) (now : Nat) (id : String)
    (h : strTrim s.newTodo ≠ "") :
    (∃ t, (addTodo s now).todos = s.todos ++ [t] ∧ t.synced = s.isOnline ∧
      (s.isOnline = false → t.synced = false) ∧ (s.isOnline = true → t.synced = true)) ∧
    (∀ t ∈ (toggleTodo s id).todos, t.id = id → t.synced = s.isOnline) := by
  constructor
  · refine ⟨newItem s now, ?_, rfl, fun h2 => h2, fun h2 => h2⟩
    unfold addTodo
    rw [if_neg h]
  · intro t ht hid
    simp only [toggleTodo] at ht
    obtain ⟨x, hx, hfx⟩ := List.mem_map.mp ht
    by_cases hxid : (x.id == id) = true
    · rw [← hfx]
      unfold toggleItem
      rw [if_pos hxid]
    · exfalso
      rw [← hfx] at hid
      unfold toggleItem at hid
      rw [if_neg hxid] at hid
      exact hxid (by simp [hid])

/-- Witness for C1 at the concrete offline state `sampleState`. -/
theorem C1_witness :
    strTrim sampleState.newTodo ≠ "" ∧
    ((∃ t, (addTodo sampleState 5).todos = sampleState.todos ++ [t] ∧
        t.synced = sampleState.isOnline ∧
        (sampleState.isOnline = false → t.synced = false) ∧
        (sampleState.isOnline = true → t.synced = true)) ∧
      (∀ t ∈ (toggleTodo sampleState "1").todos, t.id = "1" → t.synced = sampleState.isOnline)) :=
  ⟨by decide, C1_mutation_sets_synced sampleState 5 "1" (by decide)⟩

/-- C2: a reconciliation pass run to completion with no intervening mutation
replaces the list by its synced snapshot, so every item that existed at the
start is synced in memory, and the store holds a synced record under every
such item's id. -/
theorem C2_sync_marks_all_synced (s : AppState) :
    (syncTodos s).todos = s.todos.map (fun t => { t with synced := true }) ∧
    (∀ t ∈ (syncTodos s).todos, t.synced = true) ∧
    (∀ t ∈ s.todos, ∃ u ∈ (syncTodos s).store, u.id = t.id ∧ u.synced = true) := by
  refine ⟨rfl, ?_, ?_⟩
  · intro t ht
    simp only [syncTodos] at ht
    obtain ⟨x, hx, hfx⟩ := List.mem_map.mp ht
    rw [← hfx]
  · intro t ht
    have hall : ∀ x ∈ s.todos.map (fun u => { u with synced := true }), x.synced = true := by
      intro x hx
      obtain ⟨y, hy, hfy⟩ := List.mem_map.mp hx
      rw [← hfy]
    have hmem : ({ t with synced := true } : Todo) ∈
        s.todos.map (fun u => { u with synced := true }) :=
      List.mem_map.mpr ⟨t, ht, rfl⟩
    exact foldl_putDB_mem_id hall hmem s.store

/-- C3: deleting an id removes every matching item from the in-memory list
and from the store, so a subsequent `getAll` does not return it. -/
theorem C3_delete_removes (s : AppState) (id : String) :
    (∀ t ∈ (deleteTodo s id).todos, t.id ≠ id) ∧
    (∀ t ∈ getAllDB (deleteTodo s id).store, t.id ≠ id) := by
  constructor
  · intro t ht
    simp only [deleteTodo] at ht
    simpa using (List.mem_filter.mp ht).2
  · intro t ht
    simp only [deleteTodo, getAllDB, deleteDB] at ht
    simpa using (List.mem_filter.mp ht).2

/-- C4: toggling the same id twice restores every item's `completed` field. -/
theorem C4_toggle_twice_completed (s : AppState) (id : String) :
    (toggleTodo (toggleTodo s id) id).todos.map (fun t => t.completed) =
      s.todos.map (fun t => t.completed) := by
  show ((s.todos.map (toggleItem s.isOnline id)).map (toggleItem s.isOnline id)).map
      (fun t => t.completed) = s.todos.map (fun t => t.completed)
  rw [List.map_map, List.map_map]
  apply List.map_congr_left
  intro t ht
  simp only [Function.comp_apply]
  exact toggleItem_toggleItem_completed s.isOnline s.isOnline id t

/-- C5: the displayed pending count is the number of items with
`synced = false`, and the pending banner is rendered exactly when the app is
offline and that count is positive. -/
theorem C5_pending_count_banner (s : AppState) :
    unsyncedCount s.todos = s.todos.countP (fun t => t.synced == false) ∧
    (showPendingBanner s = true ↔ s.isOnline = false ∧ 0 < unsyncedCount s.todos) := by
  constructor
  · rw [List.countP_eq_length_filter]
    unfold unsyncedCount
    have hfn : (fun t : Todo => t.synced == false) = (fun t : Todo => !t.synced) := by
      funext t
      cases t.synced <;> rfl
    rw [hfn]
  · unfold showPendingBanner
    constructor
    · intro hb
      rw [Bool.and_eq_true] at hb
      refine ⟨?_, of_decide_eq_true hb.1⟩
      cases h : s.isOnline
      · rfl
      · rw [h] at hb
        simp at hb
    · intro h
      rw [Bool.and_eq_true]
      refine ⟨decide_eq_true h.2, by rw [h.1]; rfl⟩


/-- C6: `addTodo` rejects an input that is empty or all whitespace, leaving
the whole state (list, store, input field) unchanged; any other input is
accepted and appends an item, clearing the input field. -/
theorem C6_add_validation (s : AppState) (now : Nat) :
    ((∀ c ∈ s.newTodo.data, isWS c = true) → addTodo s now = s) ∧
    ((¬ ∀ c ∈ s.newTodo.data, isWS c = true) →
      ∃ t, (addTodo s now).todos = s.todos ++ [t] ∧ (addTodo s now).newTodo = "") := by
  constructor
  · intro h
    have he : strTrim s.newTodo = "" := (strTrim_eq_empty_iff s.newTodo).mpr (fun c hc => h c hc)
    unfold addTodo
    rw [if_pos he]
  · intro h
    have hne : strTrim s.newTodo ≠ "" := fun he =>
      h (fun c hc => (strTrim_eq_empty_iff s.newTodo).mp he c hc)
    refine ⟨newItem s now, ?_, ?_⟩ <;> (unfold addTodo; rw [if_neg hne])

/-- C7 counterexample: the claim fails already on the app's initial render
trace `[true]` (component mounted online, no connectivity event): the
`[isOnline]` effect fires on mount and calls `syncTodos` once, while the
signal makes zero `false → true` transitions. -/
theorem C7_counterexample : ¬ (syncCalls [true] = falseToTrue [true]) := by decide

/-- C7 amended: over any render trace (which in the component always starts
with `true`, the `useState` initial value), `syncTodos` is invoked once on
the initial render plus once per `false → true` transition of the
connectivity signal, and at no other time. -/
theorem C7_sync_invocations (vs : List Bool) :
    syncCalls (true :: vs) = 1 + falseToTrue (true :: vs) := by
  have key : ∀ (ws : List Bool) (prev : Bool), syncCallsFrom prev ws = falseToTrue (prev :: ws) := by
    intro ws
    induction ws with
    | nil => intro prev; rfl
    | cons v ws ih =>
      intro prev
      show (if !prev && v then 1 else 0) + syncCallsFrom v ws = falseToTrue (prev :: v :: ws)
      rw [ih v]
      rfl
  show (if true then 1 else 0) + syncCallsFrom true vs = 1 + falseToTrue (true :: vs)
  rw [key vs true]
  rfl

/-- C8: in every state reachable from the initial state by any event
sequence, no two stored records share an id (the store is an upsert-by-id
key-value store). -/
theorem C8_store_ids_unique (ops : List Op) :
    ((runOps initState ops).store.map Todo.id).Nodup := by
  exact runOps_preserves idsNodup_applyOp ops initState List.nodup_nil

/-- C9: an accepted add stores the trimmed input as the item's text, and in
every reachable state every item in memory has non-empty, trimmed text. -/
theorem C9_text_trimmed :
    (∀ (s : AppState) (now : Nat), strTrim s.newTodo ≠ "" →
      ∃ t, (addTodo s now).todos = s.todos ++ [t] ∧ t.text = strTrim s.newTodo ∧
        t ∈ (addTodo s now).store) ∧
    (∀ ops : List Op, ∀ t ∈ (runOps initState ops).todos,
      t.text ≠ "" ∧ strTrim t.text = t.text) := by
  constructor
  · intro s now h
    refine ⟨newItem s now, ?_, rfl, ?_⟩
    · unfold addTodo
      rw [if_neg h]
    · unfold addTodo
      rw [if_neg h]
      exact self_mem_putDB s.store (newItem s now)
  · intro ops t ht
    have h2 := runOps_preserves textOk_applyOp ops initState
      ⟨fun t ht => absurd ht (List.not_mem_nil t), fun t ht => absurd ht (List.not_mem_nil t)⟩
    exact h2.1 t ht

/-- C10: toggling an id that matches no item leaves the state unchanged:
the list is untouched and nothing is written to the store. -/
theorem C10_toggle_absent_id_noop (s : AppState) (id : String)
    (h : ∀ t ∈ s.todos, t.id ≠ id) :
    toggleTodo s id = s := by
  have hmap : s.todos.map (toggleItem s.isOnline id) = s.todos := by
    conv_rhs => rw [← List.map_id s.todos]
    apply List.map_congr_left
    intro t ht
    unfold toggleItem
    rw [if_neg (by simp [h t ht])]
    rfl
  have hfind : (s.todos.map (toggleItem s.isOnline id)).find? (fun t => t.id == id) = none := by
    rw [hmap]
    apply List.find?_eq_none.mpr
    intro t ht
    simp [h t ht]
  unfold toggleTodo
  rw [hfind, hmap]

/-- Witness for C10: toggling the absent id "99" in `sampleState` is a
no-op. -/
theorem C10_witness :
    (∀ t ∈ sampleState.todos, t.id ≠ "99") ∧ toggleTodo sampleState "99" = sampleState :=
  ⟨by decide, C10_toggle_absent_id_noop sampleState "99" (by decide)⟩

end TodoApp
